import Mathlib

/-!
Verification of the quantum resource-estimation engine (quantumMetrics module).

This file gives a shallow embedding of the estimation engine: circuits,
hardware architectures, the logical-depth calculation, gate-composition
analysis, the connectivity graph builder, the BFS shortest-path oracle, the
SWAP-overhead estimators, the timing and fidelity estimators, and the Surface
Code fault-tolerance estimator.  Floating-point numbers are modelled as exact
rationals, except where the source applies the transcendental functions exp
and log, where real numbers are used.  JavaScript falsy-fallback expressions
of the form `a || b` (where a numeric `a` falls back on 0/undefined) are
modelled by the helper jsOr.  IEEE Infinity sentinels are modelled by the top
element of the extended naturals / extended reals.
-/

/-- Model of a quantum gate record: type tag, operand qubit indices, and the
optional duration / fidelity overrides. -/
structure QuantumGate where
  id : String
  type : String
  qubits : List ℕ
  parameters : Option (List ℚ) := none
  duration : Option ℚ := none
  fidelity : Option ℚ := none
deriving DecidableEq

/-- Model of a quantum circuit: a declared qubit count and an ordered gate
list. -/
structure QuantumCircuit where
  id : String
  name : String
  qubits : ℕ
  gates : List QuantumGate
deriving DecidableEq

/-- Connectivity topologies of the hardware model. -/
inductive ConnectivityType where
  | allToAll
  | linear
  | ring
  | grid
  | heavyHex
  | heavySquare
  | custom (adjacencies : List (List ℕ))
deriving DecidableEq

/-- Model of a hardware architecture.  The string-keyed records gateErrors
and gateTimings are modelled as partial maps (a missing key is none, matching
a JavaScript undefined lookup). -/
structure QuantumHardwareArchitecture where
  name : String
  qubitCount : ℕ
  connectivity : ConnectivityType
  nativeGateSet : List String
  gateErrors : String → Option ℚ
  readoutErrors : List ℚ
  t1Times : List ℚ
  t2Times : List ℚ
  gateTimings : String → Option ℚ

/-- JavaScript numeric fallback `a || b` where a is a possibly-missing number:
the fallback is taken when the lookup is missing (undefined) or 0 (falsy). -/
def jsOr (o : Option ℚ) (d : ℚ) : ℚ :=
  match o with
  | none => d
  | some x => if x = 0 then d else x

/-- DEFAULT_PHYSICAL_ERROR_RATE = 1e-3. -/
def DEFAULT_PHYSICAL_ERROR_RATE : ℚ := 1 / 1000

/-- COHERENCE_SAFETY_FACTOR = 5. -/
def COHERENCE_SAFETY_FACTOR : ℚ := 5

/-- SURFACE_CODE_PARAMS.THRESHOLD_ERROR_RATE = 1e-2. -/
def SURFACE_CODE_PARAMS_THRESHOLD_ERROR_RATE : ℚ := 1 / 100

/-- SURFACE_CODE_PARAMS.CONSTANT_FACTOR_A = 0.1. -/
def SURFACE_CODE_PARAMS_CONSTANT_FACTOR_A : ℚ := 1 / 10

/-- SURFACE_CODE_PARAMS.PHYSICAL_PER_LOGICAL_FACTOR_FUNC d = 2 * d * d. -/
def SURFACE_CODE_PARAMS_PHYSICAL_PER_LOGICAL_FACTOR_FUNC (d : ℤ) : ℤ := 2 * d * d

/-- SURFACE_CODE_PARAMS.ROUTING_OVERHEAD_FACTOR = 1.5. -/
def SURFACE_CODE_PARAMS_ROUTING_OVERHEAD_FACTOR : ℚ := 3 / 2

/-- SURFACE_CODE_PARAMS.LOGICAL_CYCLE_TIME_FACTOR_VS_PHYSICAL_GATE d = 5 * d. -/
def SURFACE_CODE_PARAMS_LOGICAL_CYCLE_TIME_FACTOR (d : ℤ) : ℤ := 5 * d

/-- The error thrown by calculateCircuitLogicalDepth when a gate references a
qubit index at or beyond the circuit's declared qubit count (the message
interpolates the gate id, the offending index and the qubit count; we keep
those three data). -/
inductive QcError where
  | outOfRange (gateId : String) (qubitIndex : ℕ) (circuitQubits : ℕ)
deriving DecidableEq

/-- Inner loop of calculateCircuitLogicalDepth over one gate's qubit list:
computes currentGateStartLayer as the max of the tracker over the gate's
qubits, throwing on the first out-of-range qubit index. -/
def depthInner (n : ℕ) (tracker : ℕ → ℕ) (gateId : String) :
    List ℕ → ℕ → Except QcError ℕ
  | [], acc => .ok acc
  | q :: qs, acc =>
    if n ≤ q then .error (.outOfRange gateId q n)
    else depthInner n tracker gateId qs (max acc (tracker q))

/-- Outer loop of calculateCircuitLogicalDepth: the state is the pair of the
qubitLayerTracker array (as a function) and maxLayer. -/
def depthLoop (n : ℕ) : List QuantumGate → ((ℕ → ℕ) × ℕ) →
    Except QcError ((ℕ → ℕ) × ℕ)
  | [], st => .ok st
  | g :: gs, st =>
    match depthInner n st.1 g.id g.qubits 0 with
    | .error e => .error e
    | .ok start =>
      depthLoop n gs
        (fun q => if q ∈ g.qubits then start + 1 else st.1 q, max st.2 (start + 1))

/-- calculateCircuitLogicalDepth: layered depth of a circuit; 0 for an empty
gate list, an OutOfRange error if a gate references a qubit index at or
beyond circuit.qubits. -/
def calculateCircuitLogicalDepth (circuit : QuantumCircuit) : Except QcError ℕ :=
  if circuit.gates.isEmpty then .ok 0
  else (depthLoop circuit.qubits circuit.gates (fun _ => 0, 0)).map (fun st => st.2)

/-- Result record of analyzeGateComposition.  gateCounts is the per-tag count
map (missing tags count 0, mirroring `gateCounts[t] || 0`). -/
structure GateComposition where
  gateCounts : String → ℕ
  totalGateCount : ℕ
  tGateCount : ℕ
  cliffordGateCount : ℕ
  nonCliffordGateCount : ℕ
  twoQubitGateCount : ℕ
  multiQubitGateCount : ℕ

/-- The fixed Clifford tag set used by analyzeGateComposition. -/
def CLIFFORD_GATES : List String :=
  ["X", "Y", "Z", "H", "S", "SDG", "CX", "CY", "CZ", "CNOT", "SWAP"]

/-- JavaScript String.prototype.toUpperCase restricted to ASCII tags:
character-wise uppercasing of the tag. -/
def jsToUpper (s : String) : String := ⟨s.data.map Char.toUpper⟩

/-- Per-gate update of the composition counters, in source order: the tag
count map, the (case-sensitive) T/TDG counter, the Clifford versus
non-Clifford split on the uppercased tag, and the 2-qubit / multi-qubit
split on the operand count. -/
def gateCompositionStep (g : QuantumGate) (acc : GateComposition) : GateComposition :=
  let acc := { acc with
    gateCounts := fun t => if t = g.type then acc.gateCounts g.type + 1 else acc.gateCounts t }
  let acc := if g.type = "T" ∨ g.type = "TDG" then
      { acc with tGateCount := acc.tGateCount + 1 } else acc
  let acc := if CLIFFORD_GATES.contains (jsToUpper g.type) then
      { acc with cliffordGateCount := acc.cliffordGateCount + 1 }
    else
      { acc with nonCliffordGateCount := acc.nonCliffordGateCount + 1 }
  if g.qubits.length = 2 then
    { acc with twoQubitGateCount := acc.twoQubitGateCount + 1 }
  else if 2 < g.qubits.length then
    { acc with multiQubitGateCount := acc.multiQubitGateCount + 1 }
  else acc

/-- The for-loop of analyzeGateComposition. -/
def gateCompositionLoop : List QuantumGate → GateComposition → GateComposition
  | [], acc => acc
  | g :: gs, acc => gateCompositionLoop gs (gateCompositionStep g acc)

/-- analyzeGateComposition: single pass over the gate list; totalGateCount is
set to the gate-list length on return. -/
def analyzeGateComposition (circuit : QuantumCircuit) : GateComposition :=
  let r := gateCompositionLoop circuit.gates
    { gateCounts := fun _ => 0, totalGateCount := 0, tGateCount := 0,
      cliffordGateCount := 0, nonCliffordGateCount := 0,
      twoQubitGateCount := 0, multiQubitGateCount := 0 }
  { r with totalGateCount := circuit.gates.length }

/-- Appends one neighbor to adj[i] (the JavaScript `adj[i].push(v)`; a set at
an out-of-range index is the identity, which is never exercised by the
builder loops, whose indices stay below qubitCount). -/
def adjPush (adj : List (List ℕ)) (i v : ℕ) : List (List ℕ) :=
  adj.set i (adj.getD i [] ++ [v])

/-- First-occurrence deduplication, the semantics of `[...new Set(neighbors)]`. -/
def jsDedup : List ℕ → List ℕ
  | [] => []
  | a :: l => a :: jsDedup (l.filter (fun x => x != a))
termination_by l => l.length
decreasing_by
  simp only [List.length_cons]
  exact Nat.lt_succ_of_le (List.length_filter_le _ _)

/-- Math.ceil (Math.sqrt n) on a natural number. -/
def natCeilSqrt (n : ℕ) : ℕ :=
  if Nat.sqrt n * Nat.sqrt n = n then Nat.sqrt n else Nat.sqrt n + 1

/-- The 'all-to-all' case of buildAdjacencyList: for each i, for each j in
(i, qubitCount), push j onto adj[i] and i onto adj[j]. -/
def allToAllAdjLoop (n : ℕ) : List (List ℕ) :=
  (List.range n).foldl
    (fun adj i =>
      (List.range' (i + 1) (n - (i + 1))).foldl
        (fun adj j => adjPush (adjPush adj i j) j i) adj)
    (List.replicate n [])

/-- The 'linear' case of buildAdjacencyList: for i in [0, n-2], push i+1 onto
adj[i] and i onto adj[i+1]. -/
def linearAdjLoop (n : ℕ) : List (List ℕ) :=
  (List.range (n - 1)).foldl
    (fun adj i => adjPush (adjPush adj i (i + 1)) (i + 1) i)
    (List.replicate n [])

/-- The 'ring' case of buildAdjacencyList. -/
def ringAdjLoop (n : ℕ) : List (List ℕ) :=
  (List.range n).foldl
    (fun adj i => adjPush (adjPush adj i ((i + 1) % n)) ((i + 1) % n) i)
    (List.replicate n [])

/-- The 'grid' case of buildAdjacencyList: row-major layout on a
ceil(sqrt n) by ceil(sqrt n) grid, edges to the right and down neighbors. -/
def gridAdjLoop (n : ℕ) : List (List ℕ) :=
  let side := natCeilSqrt n
  (List.range side).foldl
    (fun adj r =>
      (List.range side).foldl
        (fun adj c =>
          let idx := r * side + c
          if n ≤ idx then adj
          else
            let adj :=
              if c + 1 < side ∧ idx + 1 < n then
                adjPush (adjPush adj idx (idx + 1)) (idx + 1) idx
              else adj
            if r + 1 < side ∧ idx + side < n then
              adjPush (adjPush adj idx (idx + side)) (idx + side) idx
            else adj)
        adj)
    (List.replicate n [])

/-- The 'heavy-hex' / 'heavy-square' case of buildAdjacencyList: a linear
chain plus a skip edge (i, i+2) whenever i < n - 2 and i mod 3 = 0. -/
def heavyAdjLoop (n : ℕ) : List (List ℕ) :=
  (List.range (n - 1)).foldl
    (fun adj i =>
      let adj := adjPush (adjPush adj i (i + 1)) (i + 1) i
      if i < n - 2 ∧ i % 3 = 0 then adjPush (adjPush adj i (i + 2)) (i + 2) i
      else adj)
    (List.replicate n [])

/-- buildAdjacencyList: the custom case returns the caller's adjacency list
verbatim (no deduplication); every named topology deduplicates each neighbor
list, keeping first occurrences. -/
def buildAdjacencyList (architecture : QuantumHardwareArchitecture) : List (List ℕ) :=
  let qubitCount := architecture.qubitCount
  match architecture.connectivity with
  | .custom adjacencies => adjacencies
  | .allToAll => (allToAllAdjLoop qubitCount).map jsDedup
  | .linear => (linearAdjLoop qubitCount).map jsDedup
  | .ring => (ringAdjLoop qubitCount).map jsDedup
  | .grid => (gridAdjLoop qubitCount).map jsDedup
  | .heavyHex => (heavyAdjLoop qubitCount).map jsDedup
  | .heavySquare => (heavyAdjLoop qubitCount).map jsDedup

/-- One neighbor visit of the BFS loop: an unvisited neighbor is marked
visited and enqueued at distance dist + 1; a visited one is skipped. -/
def bfsVisit (dist : ℕ) (st : List (ℕ × ℕ) × (ℕ → Bool)) (neighbor : ℕ) :
    List (ℕ × ℕ) × (ℕ → Bool) :=
  if st.2 neighbor then st
  else (st.1 ++ [(neighbor, dist + 1)],
        fun j => if j = neighbor then true else st.2 j)

/-- The BFS work loop of shortestPathDistance.  The queue holds (node,
distance) pairs, the visited set is a boolean function (a JavaScript array
read at an unset index is falsy).  The loop consumes one fuel per dequeue;
fuel exhaustion returns the same no-path sentinel as an emptied queue and is
unreachable under the fuel supplied by shortestPathDistance, since every
enqueue permanently marks its node visited. -/
def bfsLoop (adj : List (List ℕ)) (endNode : ℕ) :
    ℕ → List (ℕ × ℕ) → (ℕ → Bool) → ℕ∞
  | 0, _, _ => ⊤
  | _ + 1, [], _ => ⊤
  | fuel + 1, (curr, dist) :: queue, visited =>
    if curr = endNode then (dist : ℕ∞)
    else
      let st := (adj.getD curr []).foldl (bfsVisit dist) (queue, visited)
      bfsLoop adj endNode fuel st.1 st.2

/-- Fuel bound for bfsLoop: one more than the node count plus the total
neighbor-list length (every dequeued pair was enqueued, the start node is
enqueued once, and every other enqueue marks a fresh node drawn from some
neighbor list). -/
def bfsFuel (adj : List (List ℕ)) : ℕ :=
  adj.foldl (fun s l => s + l.length) adj.length + 1

/-- shortestPathDistance: BFS distance from startNode to endNode; 0 when the
two coincide (checked first), the Infinity sentinel when either index is out
of the graph's range or the queue empties without reaching endNode. -/
def shortestPathDistance (startNode endNode : ℕ) (adj : List (List ℕ)) : ℕ∞ :=
  if startNode = endNode then 0
  else if adj.length ≤ startNode ∨ adj.length ≤ endNode then ⊤
  else bfsLoop adj endNode (bfsFuel adj) [(startNode, 0)] (fun j => j = startNode)

/-- Routing strategy selector of estimateSwapOverheadCount. -/
inductive RoutingAlgorithm where
  | shortestPath
  | greedyRouter
deriving DecidableEq

/-- The 'shortest-path' branch of estimateSwapOverheadCount: for each 2-qubit
gate, add distance - 1 between the two mapped physical qubits whenever that
distance exceeds 1.  The mapping is never updated.  A logical qubit index
beyond the mapping's length (an undefined lookup) skips the gate. -/
def swapShortestPathLoop (adj : List (List ℕ)) (currentMapping : List ℕ) :
    List QuantumGate → ℕ∞ → ℕ∞
  | [], totalSwaps => totalSwaps
  | g :: gs, totalSwaps =>
    match g.qubits with
    | [logQ1, logQ2] =>
      match currentMapping.get? logQ1, currentMapping.get? logQ2 with
      | some physQ1, some physQ2 =>
        let dist := shortestPathDistance physQ1 physQ2 adj
        swapShortestPathLoop adj currentMapping gs
          (if 1 < dist then totalSwaps + (dist - 1) else totalSwaps)
      | _, _ => swapShortestPathLoop adj currentMapping gs totalSwaps
    | _ => swapShortestPathLoop adj currentMapping gs totalSwaps

/-- One best-swap search of the greedy router: fold over the neighbors of one
endpoint, keeping the swap that most reduces the distance to the other
endpoint; candidates outside the active physical-qubit set are skipped. -/
def greedyBestSwapFold (adj : List (List ℕ)) (active : List ℕ) (swapBase : ℕ)
    (distTo : ℕ → ℕ∞) (neighbors : List ℕ)
    (st : Option (ℕ × ℕ) × ℕ∞) : Option (ℕ × ℕ) × ℕ∞ :=
  neighbors.foldl
    (fun st neighbor =>
      if active.contains neighbor then
        let distAfterSwap := distTo neighbor
        if distAfterSwap < st.2 then (some (swapBase, neighbor), distAfterSwap) else st
      else st)
    st

/-- The while-loop of the greedy router for one 2-qubit gate.  Fuel decreases
once per executed SWAP; exhaustion stops the gate like the source's break
(the source loop terminates because each applied swap strictly decreases the
endpoint distance, which is bounded by the physical qubit count). -/
def greedyWhile (adj : List (List ℕ)) (active : List ℕ) (logQ1 logQ2 : ℕ) :
    ℕ → List ℕ → ℕ∞ → ℕ → ℕ → List ℕ × ℕ∞
  | 0, mapping, totalSwaps, _, _ => (mapping, totalSwaps)
  | fuel + 1, mapping, totalSwaps, physQ1, physQ2 =>
    if (adj.getD physQ1 []).contains physQ2 then (mapping, totalSwaps)
    else
      let currentDist := shortestPathDistance physQ1 physQ2 adj
      if currentDist ≤ 1 then (mapping, totalSwaps)
      else
        let st := greedyBestSwapFold adj active physQ1
          (fun n1 => shortestPathDistance n1 physQ2 adj) (adj.getD physQ1 [])
          (none, currentDist)
        let st := greedyBestSwapFold adj active physQ2
          (fun n2 => shortestPathDistance physQ1 n2 adj) (adj.getD physQ2 [])
          st
        match st.1 with
        | none =>
          (mapping, totalSwaps + (if 1 < st.2 then st.2 - 1 else 0))
        | some (b0, b1) =>
          match mapping.findIdx? (fun p => p = b0), mapping.findIdx? (fun p => p = b1) with
          | some logAtSwap0, some logAtSwap1 =>
            let mapping := (mapping.set logAtSwap0 b1).set logAtSwap1 b0
            greedyWhile adj active logQ1 logQ2 fuel mapping (totalSwaps + 1)
              (mapping.getD logQ1 0) (mapping.getD logQ2 0)
          | _, _ => (mapping, totalSwaps + 1)

/-- The 'greedy-router' branch of estimateSwapOverheadCount: a live mapping,
updated gate by gate by greedyWhile.  The active physical-qubit set is the
image of the initial mapping and is not updated (matching the source). -/
def greedyGatesLoop (adj : List (List ℕ)) (active : List ℕ) (numPhysicalQubits : ℕ) :
    List QuantumGate → List ℕ → ℕ∞ → ℕ∞
  | [], _, totalSwaps => totalSwaps
  | g :: gs, mapping, totalSwaps =>
    match g.qubits with
    | [logQ1, logQ2] =>
      match mapping.get? logQ1, mapping.get? logQ2 with
      | some physQ1, some physQ2 =>
        let r := greedyWhile adj active logQ1 logQ2 (numPhysicalQubits + 1)
          mapping totalSwaps physQ1 physQ2
        greedyGatesLoop adj active numPhysicalQubits gs r.1 r.2
      | _, _ => greedyGatesLoop adj active numPhysicalQubits gs mapping totalSwaps
    | _ => greedyGatesLoop adj active numPhysicalQubits gs mapping totalSwaps

/-- estimateSwapOverheadCount: 0 immediately for all-to-all connectivity; the
Infinity sentinel when the circuit is wider than the architecture; otherwise
an invalid initial mapping (wrong distinct-element count, or a physical index
at or beyond qubitCount) is reset to the identity before routing with the
selected strategy. -/
def estimateSwapOverheadCount (circuit : QuantumCircuit)
    (architecture : QuantumHardwareArchitecture)
    (routingAlgorithm : RoutingAlgorithm) (initialMapping : Option (List ℕ)) : ℕ∞ :=
  if architecture.connectivity = ConnectivityType.allToAll then 0
  else
    let numLogicalQubits := circuit.qubits
    let numPhysicalQubits := architecture.qubitCount
    if numPhysicalQubits < numLogicalQubits then ⊤
    else
      let adj := buildAdjacencyList architecture
      let run := fun (currentMapping : List ℕ) =>
        match routingAlgorithm with
        | .shortestPath => swapShortestPathLoop adj currentMapping circuit.gates 0
        | .greedyRouter =>
          greedyGatesLoop adj currentMapping numPhysicalQubits circuit.gates
            currentMapping 0
      let currentMapping := (initialMapping.getD (List.range numLogicalQubits))
      if (jsDedup currentMapping).length ≠ numLogicalQubits ∨
          currentMapping.any (fun p => numPhysicalQubits ≤ p) then
        let currentMapping := List.range numLogicalQubits
        if currentMapping.any (fun p => numPhysicalQubits ≤ p) then ⊤
        else run currentMapping
      else run currentMapping

/-- Per-gate duration resolution of estimatePhysicalExecutionTime: the gate's
duration override, else the architecture's per-tag timing, else the
two-qubit / single-qubit category fallback (the superconducting benchmark
values 200 ns / 30 ns when the architecture omits the category keys). -/
def gateDuration (architecture : QuantumHardwareArchitecture) (g : QuantumGate) : ℚ :=
  let defaultSingleQubitTime := jsOr (architecture.gateTimings "single-qubit") 30
  let defaultTwoQubitTime := jsOr (architecture.gateTimings "two-qubit") 200
  jsOr g.duration
    (if 1 < g.qubits.length then jsOr (architecture.gateTimings g.type) defaultTwoQubitTime
     else jsOr (architecture.gateTimings g.type) defaultSingleQubitTime)

/-- estimatePhysicalExecutionTime (nanoseconds): with a positive compiled
depth, depth times the two-qubit gate duration; otherwise the sequential sum
of gate durations plus swapCount SWAPs at 3 CNOT durations each.  Both
branches add one measurement duration per circuit qubit (benchmark fallback
500 ns). -/
def estimatePhysicalExecutionTime (circuit : QuantumCircuit)
    (architecture : QuantumHardwareArchitecture) (swapCount : ℕ)
    (compiledCircuitDepth : Option ℚ) : ℚ :=
  let defaultTwoQubitTime := jsOr (architecture.gateTimings "two-qubit") 200
  let defaultMeasurementTime := jsOr (architecture.gateTimings "measurement") 500
  let sequentialTime :=
    circuit.gates.foldl (fun t g => t + gateDuration architecture g) 0
      + (swapCount : ℚ) * (3 * jsOr (architecture.gateTimings "CNOT") defaultTwoQubitTime)
  let totalTime :=
    match compiledCircuitDepth with
    | some d => if 0 < d then d * defaultTwoQubitTime else sequentialTime
    | none => sequentialTime
  totalTime + (circuit.qubits : ℚ) * defaultMeasurementTime

/-- Per-gate effective error rate of estimateCircuitFidelity: 1 minus the
gate's fidelity override when present, else the architecture's per-tag error
rate, else the two-qubit / single-qubit category fallback (1e-2 / 1e-3). -/
def effectiveGateErrorRate (architecture : QuantumHardwareArchitecture)
    (g : QuantumGate) : ℚ :=
  let defaultSingleQubitError := jsOr (architecture.gateErrors "single-qubit")
    DEFAULT_PHYSICAL_ERROR_RATE
  let defaultTwoQubitError := jsOr (architecture.gateErrors "two-qubit")
    (DEFAULT_PHYSICAL_ERROR_RATE * 10)
  match g.fidelity with
  | some f => 1 - f
  | none =>
    if 1 < g.qubits.length then jsOr (architecture.gateErrors g.type) defaultTwoQubitError
    else jsOr (architecture.gateErrors g.type) defaultSingleQubitError

/-- The gate-fidelity product of estimateCircuitFidelity. -/
def circuitGateFidelityProduct (architecture : QuantumHardwareArchitecture)
    (gates : List QuantumGate) : ℚ :=
  gates.foldl (fun f g => f * (1 - effectiveGateErrorRate architecture g)) 1

/-- The fidelity of one SWAP, three CNOTs: (1 - cnotErrorRate)^3. -/
def swapTripleCnotFidelity (architecture : QuantumHardwareArchitecture) : ℚ :=
  let defaultTwoQubitError := jsOr (architecture.gateErrors "two-qubit")
    (DEFAULT_PHYSICAL_ERROR_RATE * 10)
  (1 - jsOr (architecture.gateErrors "CNOT")
    (jsOr (architecture.gateErrors "CX") defaultTwoQubitError)) ^ 3

/-- Average readout error: the mean of the per-qubit list when non-empty (an
empty list falls through the JavaScript truthiness cast and contributes 0 to
the 1 - x exponent base). -/
def avgReadoutError (architecture : QuantumHardwareArchitecture) : ℚ :=
  if 0 < architecture.readoutErrors.length then
    architecture.readoutErrors.sum / (architecture.readoutErrors.length : ℚ)
  else 0

/-- Average T2 time in microseconds: the mean of t2Times when non-empty, else
the superconducting benchmark 80. -/
def avgT2TimeUs (architecture : QuantumHardwareArchitecture) : ℚ :=
  if 0 < architecture.t2Times.length then
    architecture.t2Times.sum / (architecture.t2Times.length : ℚ)
  else 80

/-- estimateCircuitFidelity: the product of per-gate fidelities, the SWAP
fidelity to the power swapCount, and the readout fidelity to the power
qubits; multiplied by the decoherence factor exp(-execution_time_us /
avg_T2_us) when the average T2 is positive; clamped below at 0. -/
noncomputable def estimateCircuitFidelity (circuit : QuantumCircuit)
    (architecture : QuantumHardwareArchitecture) (swapCount : ℕ) : ℝ :=
  let totalFidelity : ℚ :=
    circuitGateFidelityProduct architecture circuit.gates
      * swapTripleCnotFidelity architecture ^ swapCount
      * (1 - avgReadoutError architecture) ^ circuit.qubits
  let executionTimeUs : ℚ :=
    estimatePhysicalExecutionTime circuit architecture swapCount none / 1000
  if 0 < avgT2TimeUs architecture then
    max 0 ((totalFidelity : ℝ)
      * Real.exp (-((executionTimeUs : ℝ) / (avgT2TimeUs architecture : ℝ))))
  else max 0 (totalFidelity : ℝ)

/-- Result record of estimateFaultTolerantResources.  The quantities that the
source sets to Infinity in the infeasible branch are extended reals. -/
structure FaultToleranceResult where
  isEnabled : Bool
  targetLogicalErrorRate : ℚ
  codeName : String
  codeDistance : EReal
  logicalQubits : ℕ
  physicalQubitsPerLogical : EReal
  totalPhysicalQubits : EReal
  errorCorrectionOverheadFactor : EReal
  logicalTimeUnitDuration : EReal
  logicalDepth : ℕ
  totalLogicalExecutionTime : EReal
  resourceStateCount : EReal
  distillationOverhead : EReal

/-- The dominant physical error rate used by the fault-tolerance estimator:
the architecture's two-qubit error, else its CNOT error, else ten times the
default physical error rate (that is, exactly 1e-2). -/
def resolvePhysicalErrorRate (architecture : QuantumHardwareArchitecture) : ℚ :=
  jsOr (architecture.gateErrors "two-qubit")
    (jsOr (architecture.gateErrors "CNOT") (DEFAULT_PHYSICAL_ERROR_RATE * 10))

/-- estimateFaultTolerantResources: at or above the Surface Code threshold
the estimator returns the all-infinite sentinel record; below it, the code
distance is ceil(2 log(target/A) / log(p/threshold) - 1), rounded up to odd
and floored at 3, and the remaining quantities follow the Surface Code
scaling formulas. -/
noncomputable def estimateFaultTolerantResources (logicalQubitCount tGateCount : ℕ)
    (logicalCircuitDepth : ℕ) (architecture : QuantumHardwareArchitecture)
    (targetLogicalErrorRate : ℚ) : FaultToleranceResult :=
  let physicalErrorRate := resolvePhysicalErrorRate architecture
  if SURFACE_CODE_PARAMS_THRESHOLD_ERROR_RATE ≤ physicalErrorRate then
    { isEnabled := true, targetLogicalErrorRate := targetLogicalErrorRate,
      codeName := "SurfaceCode",
      codeDistance := ⊤, logicalQubits := logicalQubitCount,
      physicalQubitsPerLogical := ⊤, totalPhysicalQubits := ⊤,
      errorCorrectionOverheadFactor := ⊤, logicalTimeUnitDuration := ⊤,
      logicalDepth := logicalCircuitDepth, totalLogicalExecutionTime := ⊤,
      resourceStateCount := ⊤, distillationOverhead := ⊤ }
  else
    let dReal : ℝ := 2 * (Real.log ((targetLogicalErrorRate : ℝ)
          / (SURFACE_CODE_PARAMS_CONSTANT_FACTOR_A : ℝ))
        / Real.log ((physicalErrorRate : ℝ)
          / (SURFACE_CODE_PARAMS_THRESHOLD_ERROR_RATE : ℝ))) - 1
    let dCeil : ℤ := ⌈dReal⌉
    let dOdd : ℤ := if dCeil % 2 = 0 then dCeil + 1 else dCeil
    let d : ℤ := max 3 dOdd
    let physicalPerLogical : ℤ := SURFACE_CODE_PARAMS_PHYSICAL_PER_LOGICAL_FACTOR_FUNC d
    let totalPhysicalQubitsRaw : ℚ := (logicalQubitCount : ℚ) * (physicalPerLogical : ℚ)
    let totalPhysicalQubits : ℤ :=
      ⌈totalPhysicalQubitsRaw * SURFACE_CODE_PARAMS_ROUTING_OVERHEAD_FACTOR⌉
    let physicalTwoQubitGateTime : ℚ := jsOr (architecture.gateTimings "two-qubit")
      (jsOr (architecture.gateTimings "CNOT") 200)
    let logicalTimeUnitDuration : ℚ :=
      (SURFACE_CODE_PARAMS_LOGICAL_CYCLE_TIME_FACTOR d : ℚ) * physicalTwoQubitGateTime
    let totalLogicalExecutionTime : ℚ := (logicalCircuitDepth : ℚ) * logicalTimeUnitDuration
    let resourceStateCount : ℕ := tGateCount
    let distillationQubitOverhead : ℚ :=
      if 0 < resourceStateCount then (logicalQubitCount : ℚ) * (1 / 4) else 0
    { isEnabled := true, targetLogicalErrorRate := targetLogicalErrorRate,
      codeName := "SurfaceCode",
      codeDistance := ((d : ℝ) : EReal),
      logicalQubits := logicalQubitCount,
      physicalQubitsPerLogical := ((physicalPerLogical : ℝ) : EReal),
      totalPhysicalQubits := (((totalPhysicalQubits + ⌈distillationQubitOverhead⌉ : ℤ) : ℝ) : EReal),
      errorCorrectionOverheadFactor :=
        ((((physicalPerLogical : ℚ) * SURFACE_CODE_PARAMS_ROUTING_OVERHEAD_FACTOR : ℚ) : ℝ) : EReal),
      logicalTimeUnitDuration := ((logicalTimeUnitDuration : ℝ) : EReal),
      logicalDepth := logicalCircuitDepth,
      totalLogicalExecutionTime := ((totalLogicalExecutionTime : ℝ) : EReal),
      resourceStateCount := ((resourceStateCount : ℝ) : EReal),
      distillationOverhead :=
        ((if 0 < resourceStateCount then (5 / 4 : ℝ) else 1) : EReal) }

/-- A neutral architecture record used as the base of the concrete examples:
empty maps and lists everywhere. -/
def baseArch : QuantumHardwareArchitecture :=
  { name := "base", qubitCount := 0, connectivity := .allToAll,
    nativeGateSet := [], gateErrors := fun _ => none, readoutErrors := [],
    t1Times := [], t2Times := [], gateTimings := fun _ => none }

/-- The invalid-reference scenario: a 1-qubit circuit containing a gate on
qubit 5. -/
def oobCircuit : QuantumCircuit :=
  { id := "oob", name := "oob", qubits := 1,
    gates := [{ id := "g0", type := "X", qubits := [5] }] }

/-- The Bell-pair circuit H(0); CNOT(0,1). -/
def bellCircuit : QuantumCircuit :=
  { id := "bell", name := "bell", qubits := 2,
    gates := [{ id := "h0", type := "H", qubits := [0] },
              { id := "cx0", type := "CNOT", qubits := [0, 1] }] }

/-- A single-qubit X gate on qubit 0. -/
def xGate : QuantumGate := { id := "x0", type := "X", qubits := [0] }

/-- A 2-qubit circuit with no gates, wider than a 1-qubit architecture. -/
def wideCircuit : QuantumCircuit := { id := "w", name := "w", qubits := 2, gates := [] }

/-- A 1-qubit all-to-all architecture. -/
def tinyAllToAllArch : QuantumHardwareArchitecture :=
  { baseArch with qubitCount := 1, connectivity := .allToAll }

/-- A 1-qubit linear architecture. -/
def tinyLinearArch : QuantumHardwareArchitecture :=
  { baseArch with qubitCount := 1, connectivity := .linear }

/-- An architecture whose two-qubit gate error is 2e-2, at or above the
Surface Code threshold. -/
def highErrorArch : QuantumHardwareArchitecture :=
  { baseArch with
    gateErrors := fun s => if s = "two-qubit" then some (2 / 100) else none }

/-- A 1-qubit circuit whose only gate carries the lowercase tag 't'. -/
def lowercaseTCircuit : QuantumCircuit :=
  { id := "tc", name := "tc", qubits := 1,
    gates := [{ id := "t0", type := "t", qubits := [0] }] }

/-- A single-qubit gate with tag 'X', used by the fidelity examples. -/
def fidGate : QuantumGate := { id := "g", type := "X", qubits := [0] }

/-- A 1-qubit circuit containing exactly fidGate. -/
def fidCircuit : QuantumCircuit :=
  { id := "fc", name := "fc", qubits := 1, gates := [fidGate] }

/-- Architecture for the fidelity examples: error rate 1/2 for tag X, one
zero readout error, and a zero T2 time (so the decoherence multiplier is
skipped). -/
def fidArchZeroT2 : QuantumHardwareArchitecture :=
  { baseArch with
    gateErrors := fun s => if s = "X" then some (1 / 2) else none,
    readoutErrors := [0], t2Times := [0] }

/-- Same architecture with an average T2 of 1 microsecond, which activates
the decoherence multiplier. -/
def fidArchPosT2 : QuantumHardwareArchitecture :=
  { fidArchZeroT2 with t2Times := [1] }

/-- A circuit with one 2-qubit gate between logical qubits 0 and k-1 on k
declared qubits. -/
def chainCircuit (k : ℕ) : QuantumCircuit :=
  { id := "chain", name := "chain", qubits := k,
    gates := [{ id := "cx", type := "CNOT", qubits := [0, k - 1] }] }

/-- A k-qubit linear-connectivity architecture. -/
def linearArch (k : ℕ) : QuantumHardwareArchitecture :=
  { baseArch with qubitCount := k, connectivity := .linear }

/-- One directed adjacency step: y occurs in x's neighbor list. -/
def adjStep (adj : List (List ℕ)) (x y : ℕ) : Prop := y ∈ adj.getD x []

/-- Reachability in an adjacency graph: the reflexive-transitive closure of
the neighbor relation. -/
def adjReachable (adj : List (List ℕ)) : ℕ → ℕ → Prop :=
  Relation.ReflTransGen (adjStep adj)

/-- Well-formedness of an adjacency graph: every listed neighbor is a node
index of the graph. -/
def adjWellFormed (adj : List (List ℕ)) : Prop :=
  ∀ l ∈ adj, ∀ v ∈ l, v < adj.length

/-- A three-node graph with an edge 0-1 and an isolated node 2. -/
def pathGraphW : List (List ℕ) := [[1], [0], []]

/-- The visited set of the BFS run on the linear chain after node i is
dequeued: exactly the nodes up to i. -/
def bfsChainVisited (i : ℕ) : ℕ → Bool := fun j => decide (j ≤ i)

/-- The first m iterations of the linear-connectivity builder loop. -/
def linearAdjPartial (k m : ℕ) : List (List ℕ) :=
  (List.range m).foldl
    (fun adj i => adjPush (adjPush adj i (i + 1)) (i + 1) i)
    (List.replicate k [])

/-- Closed form of the deduplicated linear-chain adjacency list. -/
def chainNeighbors (k i : ℕ) : List ℕ :=
  if i < k then
    (if 0 < i then [i - 1] else []) ++ (if i + 1 < k then [i + 1] else [])
  else []


theorem depthInner_error_iff (n : ℕ) (tr : ℕ → ℕ) (gid : String) :
    ∀ (qs : List ℕ) (acc : ℕ),
      (∃ e, depthInner n tr gid qs acc = .error e) ↔ ∃ q ∈ qs, n ≤ q := by
  intro qs
  induction qs with
  | nil => intro acc; simp [depthInner]
  | cons q qs ih =>
    intro acc
    by_cases hq : n ≤ q
    · simp [depthInner, hq]
    · simp only [depthInner, if_neg hq, ih, List.mem_cons]
      constructor
      · rintro ⟨x, hx, hnx⟩; exact ⟨x, Or.inr hx, hnx⟩
      · rintro ⟨x, hx | hx, hnx⟩
        · exact absurd (hx ▸ hnx) hq
        · exact ⟨x, hx, hnx⟩

theorem depthInner_ok (n : ℕ) (tr : ℕ → ℕ) (gid : String) (qs : List ℕ) (acc : ℕ)
    (h : ∀ q ∈ qs, q < n) : ∃ v, depthInner n tr gid qs acc = .ok v := by
  cases hr : depthInner n tr gid qs acc with
  | ok v => exact ⟨v, rfl⟩
  | error e =>
    obtain ⟨q, hq, hnq⟩ := (depthInner_error_iff n tr gid qs acc).mp ⟨e, hr⟩
    exact absurd (h q hq) (not_lt.mpr hnq)

theorem depthLoop_error_iff (n : ℕ) :
    ∀ (gs : List QuantumGate) (st : (ℕ → ℕ) × ℕ),
      (∃ e, depthLoop n gs st = .error e) ↔
      ∃ g ∈ gs, ∃ q ∈ g.qubits, n ≤ q := by
  intro gs
  induction gs with
  | nil => intro st; simp [depthLoop]
  | cons g gs ih =>
    intro st
    simp only [depthLoop, List.mem_cons, exists_eq_or_imp]
    cases hr : depthInner n st.1 g.id g.qubits 0 with
    | error e =>
      have hbad := (depthInner_error_iff n st.1 g.id g.qubits 0).mp ⟨e, hr⟩
      constructor
      · intro _; exact Or.inl hbad
      · intro _; exact ⟨e, rfl⟩
    | ok v =>
      rw [ih]
      constructor
      · intro h; exact Or.inr h
      · intro h
        cases h with
        | inl hbad =>
          obtain ⟨e, he⟩ := (depthInner_error_iff n st.1 g.id g.qubits 0).mpr hbad
          rw [he] at hr
          exact Except.noConfusion hr
        | inr h => exact h

/-- C1: within the circuit analysis entry point, the depth computation
calculateCircuitLogicalDepth fails with an OutOfRange error exactly when
some gate references a qubit index at or beyond circuit.qubits (the index is
never clamped), and the 1-qubit circuit with a gate on qubit 5 fails with
the OutOfRange error naming gate g0, index 5 and qubit count 1. -/
theorem C1_analyze_out_of_range :
    (∀ c : QuantumCircuit,
      (∃ e, calculateCircuitLogicalDepth c = .error e) ↔
      ∃ g ∈ c.gates, ∃ q ∈ g.qubits, c.qubits ≤ q) ∧
    calculateCircuitLogicalDepth oobCircuit =
      .error (.outOfRange "g0" 5 1) := by
  constructor
  · intro c
    unfold calculateCircuitLogicalDepth
    by_cases hmt : c.gates.isEmpty
    · rw [if_pos hmt]
      rw [List.isEmpty_iff] at hmt
      simp [hmt]
    · rw [if_neg hmt]
      cases hr : depthLoop c.qubits c.gates (fun _ => 0, 0) with
      | error e =>
        simp only [hr, Except.map]
        constructor
        · intro _; exact (depthLoop_error_iff c.qubits c.gates _).mp ⟨e, hr⟩
        · intro _; exact ⟨e, rfl⟩
      | ok st =>
        simp only [hr, Except.map]
        constructor
        · rintro ⟨e, he⟩; exact Except.noConfusion he
        · intro hbad
          obtain ⟨e, he⟩ := (depthLoop_error_iff c.qubits c.gates (fun _ => 0, 0)).mpr hbad
          rw [he] at hr
          exact Except.noConfusion hr
  · rfl

/-- C1 witness: the invalid-reference scenario evaluated concretely. -/
theorem C1_analyze_out_of_range_witness :
    ∃ e, calculateCircuitLogicalDepth oobCircuit = .error e :=
  ⟨.outOfRange "g0" 5 1, C1_analyze_out_of_range.2⟩

theorem depthLoop_append (n : ℕ) (gs gs' : List QuantumGate) :
    ∀ st : (ℕ → ℕ) × ℕ,
      depthLoop n (gs ++ gs') st =
        match depthLoop n gs st with
        | .error e => .error e
        | .ok st' => depthLoop n gs' st' := by
  induction gs with
  | nil => intro st; simp [depthLoop]
  | cons g gs ih =>
    intro st
    simp only [List.cons_append, depthLoop]
    cases depthInner n st.1 g.id g.qubits 0 with
    | error e => rfl
    | ok v => exact ih _

theorem depthLoop_le (n : ℕ) :
    ∀ (gs : List QuantumGate) (st st' : (ℕ → ℕ) × ℕ),
      depthLoop n gs st = .ok st' → st.2 ≤ st'.2 := by
  intro gs
  induction gs with
  | nil =>
    intro st st' h
    simp only [depthLoop] at h
    cases h
    exact le_refl _
  | cons g gs ih =>
    intro st st' h
    simp only [depthLoop] at h
    cases hr : depthInner n st.1 g.id g.qubits 0 with
    | error e => rw [hr] at h; exact Except.noConfusion h
    | ok v =>
      rw [hr] at h
      exact le_trans (le_max_left _ _) (ih _ _ h)

/-- C7: appending a gate whose qubit indices are all in range never decreases
the logical depth computed by the analyzer. -/
theorem C7_depth_monotone (c : QuantumCircuit) (g : QuantumGate)
    (hg : ∀ q ∈ g.qubits, q < c.qubits) (d : ℕ)
    (hd : calculateCircuitLogicalDepth c = .ok d) :
    ∃ d', calculateCircuitLogicalDepth { c with gates := c.gates ++ [g] } = .ok d'
      ∧ d ≤ d' := by
  have hne : ({ c with gates := c.gates ++ [g] } : QuantumCircuit).gates.isEmpty = false := by
    simp
  unfold calculateCircuitLogicalDepth at hd ⊢
  rw [hne]
  simp only [Bool.false_eq_true, if_false]
  by_cases hmt : c.gates.isEmpty
  · rw [if_pos hmt] at hd
    cases hd
    rw [List.isEmpty_iff] at hmt
    rw [hmt]
    simp only [List.nil_append]
    obtain ⟨v, hv⟩ := depthInner_ok c.qubits (fun _ => 0) g.id g.qubits 0 hg
    refine ⟨max 0 (v + 1), ?_, Nat.zero_le _⟩
    simp [depthLoop, hv, Except.map]
  · rw [if_neg hmt] at hd
    cases hr : depthLoop c.qubits c.gates (fun _ => 0, 0) with
    | error e =>
      rw [hr] at hd
      exact Except.noConfusion hd
    | ok st =>
      rw [hr] at hd
      have hst : st.2 = d := by
        simpa [Except.map] using hd
      obtain ⟨v, hv⟩ := depthInner_ok c.qubits st.1 g.id g.qubits 0 hg
      refine ⟨max st.2 (v + 1), ?_, hst ▸ le_max_left _ _⟩
      rw [depthLoop_append c.qubits c.gates [g], hr]
      simp [depthLoop, hv, Except.map]

/-- C7 witness: appending an X gate to the Bell circuit keeps the depth at
least 2. -/
theorem C7_depth_monotone_witness :
    ∃ d', calculateCircuitLogicalDepth
        { bellCircuit with gates := bellCircuit.gates ++ [xGate] } = .ok d' ∧ 2 ≤ d' :=
  C7_depth_monotone bellCircuit xGate (by decide) 2 rfl

theorem gateCompositionStep_tGateCount (g : QuantumGate) (acc : GateComposition) :
    (gateCompositionStep g acc).tGateCount =
      acc.tGateCount + (if g.type = "T" ∨ g.type = "TDG" then 1 else 0) := by
  simp only [gateCompositionStep]
  split_ifs <;> rfl

theorem gateCompositionStep_cliffordSplit (g : QuantumGate) (acc : GateComposition) :
    (gateCompositionStep g acc).cliffordGateCount
      + (gateCompositionStep g acc).nonCliffordGateCount =
      acc.cliffordGateCount + acc.nonCliffordGateCount + 1 := by
  simp only [gateCompositionStep]
  split_ifs <;> simp <;> omega

theorem gateCompositionLoop_tGateCount :
    ∀ (gs : List QuantumGate) (acc : GateComposition),
      (gateCompositionLoop gs acc).tGateCount =
        acc.tGateCount + gs.countP (fun g => decide (g.type = "T" ∨ g.type = "TDG")) := by
  intro gs
  induction gs with
  | nil => intro acc; simp [gateCompositionLoop]
  | cons g gs ih =>
    intro acc
    simp only [gateCompositionLoop, ih, gateCompositionStep_tGateCount,
      List.countP_cons]
    by_cases h : g.type = "T" ∨ g.type = "TDG" <;> simp [h] <;> omega

theorem gateCompositionLoop_cliffordSplit :
    ∀ (gs : List QuantumGate) (acc : GateComposition),
      (gateCompositionLoop gs acc).cliffordGateCount
        + (gateCompositionLoop gs acc).nonCliffordGateCount =
        acc.cliffordGateCount + acc.nonCliffordGateCount + gs.length := by
  intro gs
  induction gs with
  | nil => intro acc; simp [gateCompositionLoop]
  | cons g gs ih =>
    intro acc
    simp only [gateCompositionLoop, ih, gateCompositionStep_cliffordSplit,
      List.length_cons]
    omega

/-- C4 counterexample: the source compares gate tags to 'T' and 'TDG'
case-sensitively, so the circuit whose single gate carries the lowercase tag
't' reports a T-gate count of 0 even though its case-insensitive T-tag count
is 1, refuting the claimed case-insensitive comparison. -/
theorem C4_t_count_counterexample :
    (analyzeGateComposition lowercaseTCircuit).tGateCount = 0 ∧
    lowercaseTCircuit.gates.countP
      (fun g => decide (jsToUpper g.type = "T" ∨ jsToUpper g.type = "TDG")) = 1 := by
  constructor
  · rfl
  · rfl

/-- C4 amended: the T-gate count reported by analyzeGateComposition equals
the number of gates whose tag equals exactly 'T' or 'TDG' (a case-sensitive
comparison; in particular lowercase 't' and 'tdg' tags are not counted). -/
theorem C4_t_count_amended (c : QuantumCircuit) :
    (analyzeGateComposition c).tGateCount =
      c.gates.countP (fun g => decide (g.type = "T" ∨ g.type = "TDG")) := by
  unfold analyzeGateComposition
  simp only [gateCompositionLoop_tGateCount]
  omega

/-- C4 amended witness: a circuit with tags T, t and TDG counts exactly the
two exact-case matches. -/
theorem C4_t_count_amended_witness :
    (analyzeGateComposition
      { id := "w4", name := "w4", qubits := 1,
        gates := [{ id := "a", type := "T", qubits := [0] },
                  { id := "b", type := "t", qubits := [0] },
                  { id := "c", type := "TDG", qubits := [0] }] }).tGateCount =
    ({ id := "w4", name := "w4", qubits := 1,
        gates := [{ id := "a", type := "T", qubits := [0] },
                  { id := "b", type := "t", qubits := [0] },
                  { id := "c", type := "TDG", qubits := [0] }] } : QuantumCircuit).gates.countP
      (fun g => decide (g.type = "T" ∨ g.type = "TDG")) :=
  C4_t_count_amended _

/-- C9: every gate lands in exactly one of the Clifford and non-Clifford
buckets, so their counts sum to the total gate count, which is the length of
the circuit's gate list. -/
theorem C9_clifford_partition (c : QuantumCircuit) :
    (analyzeGateComposition c).cliffordGateCount
        + (analyzeGateComposition c).nonCliffordGateCount = c.gates.length ∧
    (analyzeGateComposition c).totalGateCount = c.gates.length := by
  constructor
  · unfold analyzeGateComposition
    simp only [gateCompositionLoop_cliffordSplit]
    omega
  · rfl

/-- C9 witness: the partition evaluated on the Bell circuit. -/
theorem C9_clifford_partition_witness :
    (analyzeGateComposition bellCircuit).cliffordGateCount
        + (analyzeGateComposition bellCircuit).nonCliffordGateCount
        = bellCircuit.gates.length ∧
    (analyzeGateComposition bellCircuit).totalGateCount = bellCircuit.gates.length :=
  C9_clifford_partition bellCircuit

/-- C2 counterexample: the all-to-all early return precedes the width check,
so a 2-qubit circuit on a 1-qubit all-to-all architecture yields SWAP count
0 rather than the claimed Infinity sentinel, under both strategies. -/
theorem C2_swap_infeasible_counterexample :
    wideCircuit.qubits > tinyAllToAllArch.qubitCount ∧
    estimateSwapOverheadCount wideCircuit tinyAllToAllArch .shortestPath none = 0 ∧
    estimateSwapOverheadCount wideCircuit tinyAllToAllArch .greedyRouter none = 0 ∧
    (0 : ℕ∞) ≠ ⊤ := by
  refine ⟨by decide, rfl, rfl, by decide⟩

/-- C2 amended: for every architecture whose connectivity is not all-to-all,
every circuit wider than the architecture, either routing strategy and any
initial mapping, estimateSwapOverheadCount returns the Infinity sentinel
(with all-to-all connectivity the estimator instead returns 0 before the
width check). -/
theorem C2_swap_infeasible_amended (c : QuantumCircuit)
    (a : QuantumHardwareArchitecture) (alg : RoutingAlgorithm)
    (m : Option (List ℕ)) (hconn : a.connectivity ≠ ConnectivityType.allToAll)
    (hw : a.qubitCount < c.qubits) :
    estimateSwapOverheadCount c a alg m = ⊤ := by
  unfold estimateSwapOverheadCount
  rw [if_neg hconn]
  simp only [if_pos hw]

/-- C2 amended witness: a 2-qubit circuit on a 1-qubit linear architecture. -/
theorem C2_swap_infeasible_amended_witness :
    estimateSwapOverheadCount wideCircuit tinyLinearArch .shortestPath none = ⊤ :=
  C2_swap_infeasible_amended wideCircuit tinyLinearArch .shortestPath none
    (by decide) (by decide)

theorem ft_infeasible_fields (nL nT dL : ℕ) (a : QuantumHardwareArchitecture)
    (t : ℚ) (hp : SURFACE_CODE_PARAMS_THRESHOLD_ERROR_RATE ≤ resolvePhysicalErrorRate a) :
    (estimateFaultTolerantResources nL nT dL a t).codeDistance = ⊤ ∧
    (estimateFaultTolerantResources nL nT dL a t).physicalQubitsPerLogical = ⊤ ∧
    (estimateFaultTolerantResources nL nT dL a t).totalPhysicalQubits = ⊤ ∧
    (estimateFaultTolerantResources nL nT dL a t).errorCorrectionOverheadFactor = ⊤ ∧
    (estimateFaultTolerantResources nL nT dL a t).logicalTimeUnitDuration = ⊤ ∧
    (estimateFaultTolerantResources nL nT dL a t).totalLogicalExecutionTime = ⊤ ∧
    (estimateFaultTolerantResources nL nT dL a t).resourceStateCount = ⊤ ∧
    (estimateFaultTolerantResources nL nT dL a t).distillationOverhead = ⊤ := by
  unfold estimateFaultTolerantResources
  rw [if_pos hp]
  exact ⟨rfl, rfl, rfl, rfl, rfl, rfl, rfl, rfl⟩

/-- C3: whenever the resolved physical error rate (the two-qubit gate-error
fallback) is at or above the Surface Code threshold 1e-2, the
fault-tolerance estimator returns a record (not an exception) whose code
distance and derived quantities are all the Infinity sentinel. -/
theorem C3_ft_threshold_infinite (nL nT dL : ℕ) (a : QuantumHardwareArchitecture)
    (t : ℚ) (hp : SURFACE_CODE_PARAMS_THRESHOLD_ERROR_RATE ≤ resolvePhysicalErrorRate a) :
    (estimateFaultTolerantResources nL nT dL a t).codeDistance = ⊤ ∧
    (estimateFaultTolerantResources nL nT dL a t).physicalQubitsPerLogical = ⊤ ∧
    (estimateFaultTolerantResources nL nT dL a t).totalPhysicalQubits = ⊤ ∧
    (estimateFaultTolerantResources nL nT dL a t).errorCorrectionOverheadFactor = ⊤ ∧
    (estimateFaultTolerantResources nL nT dL a t).logicalTimeUnitDuration = ⊤ ∧
    (estimateFaultTolerantResources nL nT dL a t).totalLogicalExecutionTime = ⊤ ∧
    (estimateFaultTolerantResources nL nT dL a t).resourceStateCount = ⊤ ∧
    (estimateFaultTolerantResources nL nT dL a t).distillationOverhead = ⊤ :=
  ft_infeasible_fields nL nT dL a t hp

/-- C3 witness: an architecture with two-qubit error 2e-2 at target rate
1e-15. -/
theorem C3_ft_threshold_infinite_witness :
    (estimateFaultTolerantResources 2 3 4 highErrorArch (1 / 10 ^ 15)).codeDistance = ⊤ ∧
    (estimateFaultTolerantResources 2 3 4 highErrorArch (1 / 10 ^ 15)).physicalQubitsPerLogical = ⊤ ∧
    (estimateFaultTolerantResources 2 3 4 highErrorArch (1 / 10 ^ 15)).totalPhysicalQubits = ⊤ ∧
    (estimateFaultTolerantResources 2 3 4 highErrorArch (1 / 10 ^ 15)).errorCorrectionOverheadFactor = ⊤ ∧
    (estimateFaultTolerantResources 2 3 4 highErrorArch (1 / 10 ^ 15)).logicalTimeUnitDuration = ⊤ ∧
    (estimateFaultTolerantResources 2 3 4 highErrorArch (1 / 10 ^ 15)).totalLogicalExecutionTime = ⊤ ∧
    (estimateFaultTolerantResources 2 3 4 highErrorArch (1 / 10 ^ 15)).resourceStateCount = ⊤ ∧
    (estimateFaultTolerantResources 2 3 4 highErrorArch (1 / 10 ^ 15)).distillationOverhead = ⊤ :=
  C3_ft_threshold_infinite 2 3 4 highErrorArch (1 / 10 ^ 15)
    (by norm_num [resolvePhysicalErrorRate, jsOr, highErrorArch, baseArch,
      SURFACE_CODE_PARAMS_THRESHOLD_ERROR_RATE])

/-- C10: when the architecture's gate-error map has no positive entry under
'two-qubit' and none under 'CNOT', the fault-tolerance fallback physical
error rate is exactly DEFAULT_PHYSICAL_ERROR_RATE times 10 = 1e-2, which
equals the Surface Code threshold, so the estimator returns the all-infinite
infeasible record for every input and target rate. -/
theorem C10_default_rate_infeasible (a : QuantumHardwareArchitecture)
    (h2 : a.gateErrors "two-qubit" = none ∨ a.gateErrors "two-qubit" = some 0)
    (hC : a.gateErrors "CNOT" = none ∨ a.gateErrors "CNOT" = some 0) :
    resolvePhysicalErrorRate a = DEFAULT_PHYSICAL_ERROR_RATE * 10 ∧
    resolvePhysicalErrorRate a = SURFACE_CODE_PARAMS_THRESHOLD_ERROR_RATE ∧
    ∀ (nL nT dL : ℕ) (t : ℚ),
      (estimateFaultTolerantResources nL nT dL a t).codeDistance = ⊤ ∧
      (estimateFaultTolerantResources nL nT dL a t).physicalQubitsPerLogical = ⊤ ∧
      (estimateFaultTolerantResources nL nT dL a t).totalPhysicalQubits = ⊤ ∧
      (estimateFaultTolerantResources nL nT dL a t).errorCorrectionOverheadFactor = ⊤ ∧
      (estimateFaultTolerantResources nL nT dL a t).logicalTimeUnitDuration = ⊤ ∧
      (estimateFaultTolerantResources nL nT dL a t).totalLogicalExecutionTime = ⊤ ∧
      (estimateFaultTolerantResources nL nT dL a t).resourceStateCount = ⊤ ∧
      (estimateFaultTolerantResources nL nT dL a t).distillationOverhead = ⊤ := by
  have hrate : resolvePhysicalErrorRate a = DEFAULT_PHYSICAL_ERROR_RATE * 10 := by
    unfold resolvePhysicalErrorRate
    rcases h2 with h2 | h2 <;> rcases hC with hC | hC <;>
      simp [h2, hC, jsOr]
  refine ⟨hrate, ?_, ?_⟩
  · rw [hrate]
    norm_num [DEFAULT_PHYSICAL_ERROR_RATE, SURFACE_CODE_PARAMS_THRESHOLD_ERROR_RATE]
  · intro nL nT dL t
    refine ft_infeasible_fields nL nT dL a t ?_
    rw [hrate]
    norm_num [DEFAULT_PHYSICAL_ERROR_RATE, SURFACE_CODE_PARAMS_THRESHOLD_ERROR_RATE]

/-- C10 witness: the base architecture with an entirely empty gate-error
map. -/
theorem C10_default_rate_infeasible_witness :
    resolvePhysicalErrorRate baseArch = DEFAULT_PHYSICAL_ERROR_RATE * 10 ∧
    resolvePhysicalErrorRate baseArch = SURFACE_CODE_PARAMS_THRESHOLD_ERROR_RATE ∧
    ∀ (nL nT dL : ℕ) (t : ℚ),
      (estimateFaultTolerantResources nL nT dL baseArch t).codeDistance = ⊤ ∧
      (estimateFaultTolerantResources nL nT dL baseArch t).physicalQubitsPerLogical = ⊤ ∧
      (estimateFaultTolerantResources nL nT dL baseArch t).totalPhysicalQubits = ⊤ ∧
      (estimateFaultTolerantResources nL nT dL baseArch t).errorCorrectionOverheadFactor = ⊤ ∧
      (estimateFaultTolerantResources nL nT dL baseArch t).logicalTimeUnitDuration = ⊤ ∧
      (estimateFaultTolerantResources nL nT dL baseArch t).totalLogicalExecutionTime = ⊤ ∧
      (estimateFaultTolerantResources nL nT dL baseArch t).resourceStateCount = ⊤ ∧
      (estimateFaultTolerantResources nL nT dL baseArch t).distillationOverhead = ⊤ :=
  C10_default_rate_infeasible baseArch (Or.inl rfl) (Or.inl rfl)

theorem bfs_fold_mem (dist : ℕ) :
    ∀ (ns : List ℕ) (st : List (ℕ × ℕ) × (ℕ → Bool)) (p : ℕ × ℕ),
      p ∈ (ns.foldl (bfsVisit dist) st).1 → p ∈ st.1 ∨ p.1 ∈ ns := by
  intro ns
  induction ns with
  | nil => intro st p hp; exact Or.inl hp
  | cons n ns ih =>
    intro st p hp
    simp only [List.foldl_cons] at hp
    rcases ih (bfsVisit dist st n) p hp with h | h
    · unfold bfsVisit at h
      by_cases hv : st.2 n
      · rw [if_pos hv] at h
        exact Or.inl h
      · rw [if_neg hv] at h
        simp only [List.mem_append, List.mem_singleton] at h
        rcases h with h | h
        · exact Or.inl h
        · exact Or.inr (by rw [h]; exact List.mem_cons_self n ns)
    · exact Or.inr (List.mem_cons_of_mem n h)

theorem bfsLoop_sound (adj : List (List ℕ)) (a e : ℕ) :
    ∀ (fuel : ℕ) (queue : List (ℕ × ℕ)) (visited : ℕ → Bool),
      (∀ p ∈ queue, adjReachable adj a p.1) →
      bfsLoop adj e fuel queue visited ≠ ⊤ → adjReachable adj a e := by
  intro fuel
  induction fuel with
  | zero =>
    intro queue visited _ hne
    exact absurd rfl hne
  | succ fuel ih =>
    intro queue visited hq hne
    cases queue with
    | nil => exact absurd rfl hne
    | cons hd rest =>
      obtain ⟨curr, dist⟩ := hd
      by_cases hce : curr = e
      · exact hce ▸ hq (curr, dist) (List.mem_cons_self _ _)
      · simp only [bfsLoop, if_neg hce] at hne
        refine ih _ _ ?_ hne
        intro p hp
        rcases bfs_fold_mem dist (adj.getD curr []) (rest, visited) p hp with h | h
        · exact hq p (List.mem_cons_of_mem _ h)
        · exact Relation.ReflTransGen.tail
            (hq (curr, dist) (List.mem_cons_self _ _)) h

/-- C8: the shortest-path oracle returns a natural number or the Infinity
sentinel; it returns 0 whenever the endpoints coincide (checked first, before
the range check); for distinct endpoints it returns Infinity when either
index is out of the graph's range, and it returns Infinity whenever the
target is unreachable from the source.  The well-formedness hypothesis marks
the domain on which the embedding coincides with the source (the source
dereferences neighbor lists only for enqueued nodes, which well-formedness
keeps in range). -/
theorem C8_bfs_oracle (adj : List (List ℕ)) (a b : ℕ) (hwf : adjWellFormed adj) :
    (a = b → shortestPathDistance a b adj = 0) ∧
    (a ≠ b → adj.length ≤ a ∨ adj.length ≤ b → shortestPathDistance a b adj = ⊤) ∧
    (¬ adjReachable adj a b → shortestPathDistance a b adj = ⊤) ∧
    (shortestPathDistance a b adj = ⊤ ∨ ∃ n : ℕ, shortestPathDistance a b adj = (n : ℕ∞)) := by
  refine ⟨?_, ?_, ?_, ?_⟩
  · intro h
    simp [shortestPathDistance, h]
  · intro hne hout
    unfold shortestPathDistance
    rw [if_neg hne, if_pos hout]
  · intro hnr
    by_cases hab : a = b
    · exact absurd (hab ▸ Relation.ReflTransGen.refl) hnr
    · unfold shortestPathDistance
      rw [if_neg hab]
      by_cases hout : adj.length ≤ a ∨ adj.length ≤ b
      · rw [if_pos hout]
      · rw [if_neg hout]
        by_contra hne
        refine hnr (bfsLoop_sound adj a b (bfsFuel adj) [(a, 0)] _ ?_ hne)
        intro p hp
        simp only [List.mem_singleton] at hp
        rw [hp]
        exact Relation.ReflTransGen.refl
  · by_cases h : shortestPathDistance a b adj = ⊤
    · exact Or.inl h
    · obtain ⟨n, hn⟩ := WithTop.ne_top_iff_exists.mp h
      exact Or.inr ⟨n, hn.symm⟩

/-- C8 witness: the oracle evaluated on the three-node graph with edge 0-1
and isolated node 2, from source 0 to target 2. -/
theorem C8_bfs_oracle_witness :
    ((0 : ℕ) = 2 → shortestPathDistance 0 2 pathGraphW = 0) ∧
    ((0 : ℕ) ≠ 2 → pathGraphW.length ≤ 0 ∨ pathGraphW.length ≤ 2 →
      shortestPathDistance 0 2 pathGraphW = ⊤) ∧
    (¬ adjReachable pathGraphW 0 2 → shortestPathDistance 0 2 pathGraphW = ⊤) ∧
    (shortestPathDistance 0 2 pathGraphW = ⊤ ∨
      ∃ n : ℕ, shortestPathDistance 0 2 pathGraphW = (n : ℕ∞)) :=
  C8_bfs_oracle pathGraphW 0 2 (by unfold adjWellFormed; decide)

theorem adjPush_length (adj : List (List ℕ)) (i v : ℕ) :
    (adjPush adj i v).length = adj.length := by
  simp [adjPush]

theorem adjPush_getD (adj : List (List ℕ)) (i v j : ℕ) (hi : i < adj.length) :
    (adjPush adj i v).getD j [] =
      if j = i then adj.getD i [] ++ [v] else adj.getD j [] := by
  unfold adjPush
  rw [List.getD_eq_getElem?_getD, List.getElem?_set]
  by_cases hji : j = i
  · rw [if_pos hji.symm, if_pos (hji ▸ hi), if_pos hji]
    simp [List.getD_eq_getElem?_getD, hji]
  · rw [if_neg (fun h => hji h.symm), if_neg hji, List.getD_eq_getElem?_getD]

theorem replicate_getD (k i : ℕ) :
    (List.replicate k ([] : List ℕ)).getD i [] = [] := by
  rw [List.getD_eq_getElem?_getD, List.getElem?_replicate]
  by_cases h : i < k <;> simp [h]

theorem linearAdjPartial_succ (k m : ℕ) :
    linearAdjPartial k (m + 1) =
      adjPush (adjPush (linearAdjPartial k m) m (m + 1)) (m + 1) m := by
  unfold linearAdjPartial
  rw [List.range_succ, List.foldl_append]
  rfl

theorem linearAdjPartial_length (k : ℕ) : ∀ m, (linearAdjPartial k m).length = k := by
  intro m
  induction m with
  | zero => simp [linearAdjPartial]
  | succ m ih => rw [linearAdjPartial_succ, adjPush_length, adjPush_length, ih]

theorem linearAdjPartial_getD (k : ℕ) :
    ∀ m, m ≤ k - 1 → ∀ i,
      (linearAdjPartial k m).getD i [] =
        if i < m then (if 0 < i then [i - 1] else []) ++ [i + 1]
        else if i = m ∧ 0 < m then [i - 1] else [] := by
  intro m
  induction m with
  | zero =>
    intro _ i
    simp only [linearAdjPartial, List.range_zero, List.foldl_nil]
    rw [replicate_getD]
    simp
  | succ m ih =>
    intro hm i
    have hm' : m ≤ k - 1 := Nat.le_of_succ_le hm
    have hmk : m < k := by omega
    have hm1k : m + 1 < k := by omega
    rw [linearAdjPartial_succ]
    rw [adjPush_getD _ _ _ _ (by rw [adjPush_length, linearAdjPartial_length]; exact hm1k)]
    by_cases hi1 : i = m + 1
    · rw [if_pos hi1]
      rw [adjPush_getD _ _ _ _ (by rw [linearAdjPartial_length]; exact hmk)]
      have h1 : ¬ (m + 1 = m) := by omega
      rw [if_neg h1, ih hm' (m + 1)]
      have h2 : ¬ (m + 1 < m) := by omega
      have h3 : ¬ (m + 1 = m ∧ 0 < m) := by omega
      rw [if_neg h2, if_neg h3]
      have h4 : ¬ (i < m + 1) := by omega
      have h5 : i = m + 1 ∧ 0 < m + 1 := by omega
      rw [if_neg h4, if_pos h5]
      rw [hi1]
      simp
    · rw [if_neg hi1]
      rw [adjPush_getD _ _ _ _ (by rw [linearAdjPartial_length]; exact hmk)]
      by_cases hi0 : i = m
      · rw [if_pos hi0, ih hm' m]
        have h1 : ¬ (m < m) := by omega
        rw [if_neg h1]
        have h2 : i < m + 1 := by omega
        rw [if_pos h2]
        subst hi0
        by_cases h0 : 0 < i
        · have h3 : i = i ∧ 0 < i := ⟨rfl, h0⟩
          rw [if_pos h3, if_pos h0]
        · have h3 : ¬ (i = i ∧ 0 < i) := by omega
          rw [if_neg h3, if_neg h0]
      · rw [if_neg hi0, ih hm' i]
        by_cases hlt : i < m
        · have h2 : i < m + 1 := by omega
          rw [if_pos hlt, if_pos h2]
        · have h2 : ¬ (i < m + 1) := by omega
          have h3 : ¬ (i = m ∧ 0 < m) := by omega
          have h4 : ¬ (i = m + 1 ∧ 0 < m + 1) := by omega
          rw [if_neg hlt, if_neg h3, if_neg h2, if_neg h4]

theorem jsDedup_of_nodup : ∀ l : List ℕ, l.Nodup → jsDedup l = l := by
  intro l
  induction l with
  | nil => intro _; rw [jsDedup]
  | cons a l ih =>
    intro h
    rw [jsDedup]
    have hnotmem : a ∉ l := (List.nodup_cons.mp h).1
    have hfa : l.filter (fun x => x != a) = l := by
      refine List.filter_eq_self.mpr ?_
      intro x hx
      exact bne_iff_ne.mpr (fun hxa => hnotmem (hxa ▸ hx))
    rw [hfa, ih (List.nodup_cons.mp h).2]

theorem jsDedup_singleton (a : ℕ) : jsDedup [a] = [a] :=
  jsDedup_of_nodup [a] (List.nodup_singleton a)

theorem jsDedup_pair (a b : ℕ) (h : a ≠ b) : jsDedup [a, b] = [a, b] :=
  jsDedup_of_nodup [a, b] (by simp [h])

theorem map_getD_lt (l : List (List ℕ)) (f : List ℕ → List ℕ) (i : ℕ)
    (h : i < l.length) : (l.map f).getD i [] = f (l.getD i []) := by
  rw [List.getD_eq_getElem?_getD, List.getElem?_map, List.getD_eq_getElem?_getD,
    List.getElem?_eq_getElem h]
  simp

theorem map_getD_ge (l : List (List ℕ)) (f : List ℕ → List ℕ) (i : ℕ)
    (h : l.length ≤ i) : (l.map f).getD i [] = [] := by
  rw [List.getD_eq_getElem?_getD, List.getElem?_map,
    List.getElem?_eq_none (by omega)]
  rfl

theorem buildAdj_linear (k : ℕ) :
    buildAdjacencyList (linearArch k) = (linearAdjPartial k (k - 1)).map jsDedup := rfl

theorem chainAdj_length (k : ℕ) :
    (buildAdjacencyList (linearArch k)).length = k := by
  rw [buildAdj_linear, List.length_map, linearAdjPartial_length]

theorem chainAdj_getD (k i : ℕ) :
    (buildAdjacencyList (linearArch k)).getD i [] = chainNeighbors k i := by
  rw [buildAdj_linear]
  by_cases hik : i < k
  · rw [map_getD_lt _ _ _ (by rw [linearAdjPartial_length]; exact hik)]
    rw [linearAdjPartial_getD k (k - 1) (le_refl _) i]
    unfold chainNeighbors
    rw [if_pos hik]
    by_cases hlt : i < k - 1
    · have h2 : i + 1 < k := by omega
      rw [if_pos hlt, if_pos h2]
      by_cases h0 : 0 < i
      · rw [if_pos h0]
        simp only [List.singleton_append]
        exact jsDedup_pair (i - 1) (i + 1) (by omega)
      · rw [if_neg h0]
        simp only [List.nil_append]
        exact jsDedup_singleton (i + 1)
    · have h2 : ¬ (i + 1 < k) := by omega
      rw [if_neg hlt, if_neg h2]
      by_cases hk1 : i = k - 1 ∧ 0 < k - 1
      · have h0 : 0 < i := by omega
        rw [if_pos hk1, if_pos h0]
        simp only [List.append_nil]
        exact jsDedup_singleton (i - 1)
      · have h0 : ¬ 0 < i := by omega
        rw [if_neg hk1, if_neg h0]
        simp only [List.nil_append]
        rw [jsDedup]
  · rw [map_getD_ge _ _ _ (by rw [linearAdjPartial_length]; omega)]
    have : ¬ i < k := hik
    rw [chainNeighbors, if_neg this]

theorem bfsChainVisited_update (i : ℕ) :
    (fun j => if j = i + 1 then true else bfsChainVisited i j) =
      bfsChainVisited (i + 1) := by
  funext j
  unfold bfsChainVisited
  by_cases h : j = i + 1
  · rw [if_pos h]
    rw [decide_eq_true (by omega)]
  · rw [if_neg h]
    rw [decide_eq_decide]
    omega

theorem foldl_add_length_ge (ls : List (List ℕ)) :
    ∀ s : ℕ, s ≤ ls.foldl (fun a l => a + l.length) s := by
  induction ls with
  | nil => intro s; exact le_refl s
  | cons hd tl ih =>
    intro s
    exact le_trans (Nat.le_add_right s hd.length) (ih (s + hd.length))

theorem bfsVisit_skip (dist : ℕ) (st : List (ℕ × ℕ) × (ℕ → Bool)) (n : ℕ)
    (h : st.2 n = true) : bfsVisit dist st n = st := by
  unfold bfsVisit
  rw [h]
  simp

theorem bfsVisit_push (dist : ℕ) (st : List (ℕ × ℕ) × (ℕ → Bool)) (n : ℕ)
    (h : st.2 n = false) :
    bfsVisit dist st n =
      (st.1 ++ [(n, dist + 1)], fun j => if j = n then true else st.2 j) := by
  unfold bfsVisit
  rw [h]
  simp

theorem bfsLoop_chain (k : ℕ) (hk : 2 ≤ k) :
    ∀ (m i fuel : ℕ), i + m = k - 1 → m < fuel →
      bfsLoop (buildAdjacencyList (linearArch k)) (k - 1) fuel [(i, i)]
        (bfsChainVisited i) = ((k - 1 : ℕ) : ℕ∞) := by
  intro m
  induction m with
  | zero =>
    intro i fuel hi hf
    have hieq : i = k - 1 := by omega
    cases fuel with
    | zero => omega
    | succ f =>
      simp only [bfsLoop, if_pos hieq]
      rw [hieq]
  | succ m ih =>
    intro i fuel hi hf
    have hik : i < k - 1 := by omega
    have hne : ¬ i = k - 1 := by omega
    cases fuel with
    | zero => omega
    | succ f =>
      simp only [bfsLoop, if_neg hne]
      rw [chainAdj_getD]
      by_cases hi0 : i = 0
      · subst hi0
        have hcn : chainNeighbors k 0 = [1] := by
          unfold chainNeighbors
          have h1 : (0 : ℕ) < k := by omega
          have h2 : (0 : ℕ) + 1 < k := by omega
          have h3 : ¬ (0 : ℕ) < 0 := by omega
          rw [if_pos h1, if_neg h3, if_pos h2]
          rfl
        rw [hcn]
        simp only [List.foldl_cons, List.foldl_nil, bfsVisit]
        rw [if_neg (by rw [bfsChainVisited]; simp)]
        simp only [List.nil_append]
        rw [bfsChainVisited_update 0]
        exact ih 1 f (by omega) (by omega)
      · have hcn : chainNeighbors k i = [i - 1, i + 1] := by
          unfold chainNeighbors
          have h1 : i < k := by omega
          have h2 : i + 1 < k := by omega
          have h3 : 0 < i := by omega
          rw [if_pos h1, if_pos h3, if_pos h2]
          rfl
        rw [hcn]
        simp only [List.foldl_cons, List.foldl_nil]
        rw [bfsVisit_skip i ([], bfsChainVisited i) (i - 1)
          (decide_eq_true (by omega : i - 1 ≤ i))]
        rw [bfsVisit_push i ([], bfsChainVisited i) (i + 1)
          (decide_eq_false (by omega : ¬ i + 1 ≤ i))]
        simp only [List.nil_append]
        rw [bfsChainVisited_update i]
        exact ih (i + 1) f (by omega) (by omega)

theorem chain_spd (k : ℕ) (hk : 2 ≤ k) :
    shortestPathDistance 0 (k - 1) (buildAdjacencyList (linearArch k)) =
      ((k - 1 : ℕ) : ℕ∞) := by
  unfold shortestPathDistance
  have h0 : ¬ (0 : ℕ) = k - 1 := by omega
  rw [if_neg h0]
  have hlen := chainAdj_length k
  have hout : ¬ ((buildAdjacencyList (linearArch k)).length ≤ 0 ∨
      (buildAdjacencyList (linearArch k)).length ≤ k - 1) := by
    rw [hlen]; omega
  rw [if_neg hout]
  have hv : (fun j => decide (j = (0 : ℕ))) = bfsChainVisited 0 := by
    funext j
    rw [bfsChainVisited, decide_eq_decide]
    omega
  rw [hv]
  refine bfsLoop_chain k hk (k - 1) 0 _ (by omega) ?_
  have := foldl_add_length_ge (buildAdjacencyList (linearArch k))
    (buildAdjacencyList (linearArch k)).length
  unfold bfsFuel
  omega

/-- C6: a circuit whose only gate is a 2-qubit gate between logical qubits 0
and k-1, on a k-qubit linear-chain architecture under the shortest-path
strategy with the default identity mapping, costs exactly k-2 SWAPs. -/
theorem C6_linear_chain_swap (k : ℕ) (hk : 2 ≤ k) (g : QuantumGate)
    (c : QuantumCircuit) (hq : g.qubits = [0, k - 1]) (hc : c.gates = [g])
    (hw : c.qubits = k) :
    estimateSwapOverheadCount c (linearArch k) .shortestPath none =
      ((k - 2 : ℕ) : ℕ∞) := by
  have hconn : ¬ (linearArch k).connectivity = ConnectivityType.allToAll := by
    simp [linearArch, baseArch]
  have hwidth : ¬ (linearArch k).qubitCount < c.qubits := by
    simp [linearArch, baseArch, hw]
  have hded : jsDedup (List.range c.qubits) = List.range c.qubits :=
    jsDedup_of_nodup _ (List.nodup_range c.qubits)
  have hvalid : ¬ ((jsDedup (List.range c.qubits)).length ≠ c.qubits ∨
      ((List.range c.qubits).any (fun p => decide ((linearArch k).qubitCount ≤ p))) = true) := by
    rw [hded, List.length_range]
    refine not_or.mpr ⟨fun h => h rfl, fun h => ?_⟩
    rw [List.any_eq_true] at h
    obtain ⟨p, hp, hle⟩ := h
    rw [List.mem_range, hw] at hp
    simp only [linearArch, baseArch, decide_eq_true_eq] at hle
    omega
  unfold estimateSwapOverheadCount
  rw [if_neg hconn, if_neg hwidth]
  simp only [Option.getD_none]
  rw [if_neg hvalid]
  rw [hc, hw]
  simp only [swapShortestPathLoop, hq]
  rw [List.get?_eq_getElem?, List.get?_eq_getElem?]
  rw [List.getElem?_range (by omega : 0 < k),
    List.getElem?_range (by omega : k - 1 < k)]
  simp only
  rw [chain_spd k hk]
  by_cases h3 : 3 ≤ k
  · have hlt : (1 : ℕ∞) < ((k - 1 : ℕ) : ℕ∞) := by
      exact_mod_cast (by omega : (1 : ℕ) < k - 1)
    rw [if_pos hlt]
    simp only [swapShortestPathLoop, zero_add]
    have h0 : ((1 : ℕ) : ℕ∞) = 1 := Nat.cast_one
    rw [← h0]
    have h1 : ((k - 1 : ℕ) : ℕ∞) - ((1 : ℕ) : ℕ∞) = ((k - 1 - 1 : ℕ) : ℕ∞) := by
      exact_mod_cast rfl
    rw [h1]
    exact congrArg (fun n : ℕ => (n : ℕ∞)) (by omega)
  · have hk2 : k = 2 := by omega
    subst hk2
    rw [if_neg (by decide)]
    simp [swapShortestPathLoop]

/-- C6 witness: one CNOT between qubits 0 and 4 on a 5-qubit chain costs 3
SWAPs. -/
theorem C6_linear_chain_swap_witness :
    estimateSwapOverheadCount (chainCircuit 5) (linearArch 5) .shortestPath none =
      ((3 : ℕ) : ℕ∞) :=
  C6_linear_chain_swap 5 (by omega)
    { id := "cx", type := "CNOT", qubits := [0, 4] } (chainCircuit 5) rfl rfl rfl

/-- C5 amended: for a circuit with exactly one gate of effective error rate
ε (at most 1), an architecture whose readout error rates are all zero and
whose average T2 is not positive (so the decoherence multiplier is skipped),
estimateCircuitFidelity returns exactly 1 - ε; with a positive average T2
the result is further multiplied by exp(-execution_time_us / avg_T2_us). -/
theorem C5_fidelity_amended (c : QuantumCircuit) (a : QuantumHardwareArchitecture)
    (g : QuantumGate) (e : ℚ) (hc : c.gates = [g])
    (he : effectiveGateErrorRate a g = e) (he1 : e ≤ 1)
    (hro : ∀ r ∈ a.readoutErrors, r = 0) (ht2 : avgT2TimeUs a ≤ 0) :
    estimateCircuitFidelity c a 0 = 1 - (e : ℝ) := by
  have hread : avgReadoutError a = 0 := by
    unfold avgReadoutError
    by_cases h : 0 < a.readoutErrors.length
    · rw [if_pos h, List.sum_eq_zero hro]
      simp
    · rw [if_neg h]
  have hprod : circuitGateFidelityProduct a c.gates = 1 - e := by
    rw [hc]
    unfold circuitGateFidelityProduct
    simp [he]
  unfold estimateCircuitFidelity
  rw [if_neg (not_lt.mpr ht2)]
  rw [hprod, hread]
  simp only [pow_zero, mul_one, sub_zero, one_pow]
  have he1r : (e : ℝ) ≤ 1 := by exact_mod_cast he1
  rw [max_eq_right (by push_cast; linarith)]
  push_cast
  ring

/-- C5 amended witness: the single-X-gate circuit with gate error 1/2, zero
readout error and zero T2 evaluates to fidelity exactly 1/2. -/
theorem C5_fidelity_amended_witness :
    estimateCircuitFidelity fidCircuit fidArchZeroT2 0 = 1 - ((1 / 2 : ℚ) : ℝ) :=
  C5_fidelity_amended fidCircuit fidArchZeroT2 fidGate (1 / 2) rfl
    (by norm_num [effectiveGateErrorRate, fidArchZeroT2, baseArch, jsOr, fidGate])
    (by norm_num)
    (by simp [fidArchZeroT2, baseArch])
    (by norm_num [avgT2TimeUs, fidArchZeroT2, baseArch])

/-- C5 counterexample: on the same single-gate circuit with effective error
1/2 and all-zero readout errors but an average T2 of 1 microsecond, the
decoherence multiplier exp(-0.53/1) pushes the fidelity strictly below
1 - ε - 1/10, so the claimed equality with 1 - ε fails (far beyond floating
tolerance). -/
theorem C5_fidelity_counterexample :
    fidCircuit.gates = [fidGate] ∧
    (∀ r ∈ fidArchPosT2.readoutErrors, r = 0) ∧
    effectiveGateErrorRate fidArchPosT2 fidGate = 1 / 2 ∧
    estimateCircuitFidelity fidCircuit fidArchPosT2 0 < 1 - ((1 / 2 : ℚ) : ℝ) - 1 / 10 := by
  have he : effectiveGateErrorRate fidArchPosT2 fidGate = 1 / 2 := by
    norm_num [effectiveGateErrorRate, fidArchPosT2, fidArchZeroT2, baseArch, jsOr, fidGate]
  refine ⟨rfl, by simp [fidArchPosT2, fidArchZeroT2, baseArch], he, ?_⟩
  have hprod : circuitGateFidelityProduct fidArchPosT2 fidCircuit.gates = 1 / 2 := by
    unfold circuitGateFidelityProduct
    show (1 : ℚ) * (1 - effectiveGateErrorRate fidArchPosT2 fidGate) = 1 / 2
    rw [he]
    norm_num
  have hread : avgReadoutError fidArchPosT2 = 0 := by
    norm_num [avgReadoutError, fidArchPosT2, fidArchZeroT2, baseArch]
  have ht2 : avgT2TimeUs fidArchPosT2 = 1 := by
    norm_num [avgT2TimeUs, fidArchPosT2, fidArchZeroT2, baseArch]
  have htime : estimatePhysicalExecutionTime fidCircuit fidArchPosT2 0 none = 530 := by
    norm_num [estimatePhysicalExecutionTime, gateDuration, jsOr, fidCircuit, fidGate,
      fidArchPosT2, fidArchZeroT2, baseArch]
  unfold estimateCircuitFidelity
  rw [if_pos (by rw [ht2]; norm_num)]
  rw [hprod, hread, htime, ht2]
  simp only [pow_zero, mul_one, sub_zero, one_pow]
  have hexp : Real.exp (-(((530 / 1000 : ℚ) : ℝ) / ((1 : ℚ) : ℝ))) ≤ (153 / 100 : ℝ)⁻¹ := by
    have harg : (((530 / 1000 : ℚ) : ℝ) / ((1 : ℚ) : ℝ)) = 53 / 100 := by
      push_cast
      norm_num
    rw [harg, Real.exp_neg]
    have h1 : (153 / 100 : ℝ) ≤ Real.exp (53 / 100) := by
      have := Real.add_one_le_exp (53 / 100 : ℝ)
      linarith
    exact inv_anti₀ (by norm_num) h1
  have hpos : (0 : ℝ) ≤ ((1 / 2 : ℚ) : ℝ) * Real.exp (-(((530 / 1000 : ℚ) : ℝ) / ((1 : ℚ) : ℝ))) := by
    positivity
  rw [max_eq_right hpos]
  have hhalf : ((1 / 2 : ℚ) : ℝ) = 1 / 2 := by push_cast; norm_num
  rw [hhalf]
  nlinarith [Real.exp_pos (-(((530 / 1000 : ℚ) : ℝ) / ((1 : ℚ) : ℝ)))]
